import Mathlib

/-!
Verification of the hybrid retrieval-and-reranking pipeline of
`src/cai_trial.py` (a RAG system over financial documents).

The Python source is shallowly embedded below.  Python strings are Lean
`String`s manipulated through their underlying character lists (the core
`String` functions are avoided because they do not reduce well); floats
are modelled as rationals `ℚ`; Python exceptions are modelled with
`Except`; the Streamlit side effects (`st.warning`, `st.info`) are
modelled as explicit Boolean flags in the returned value.

The nested re-definition of `retrieve` inside itself at
`src/cai_trial.py:129` is a Colab editing artifact (the spec's design
note 9 instructs to collapse it); the embedding models the collapsed
single pipeline: guard rail, dense retrieval, lexical retrieval, fusion,
reranking, output guard rail.
-/

/-! ## Python string primitives, embedded structurally -/

/-- Python `str.lower()`: lower-case every character. -/
def pyLower (s : String) : String := ⟨s.data.map Char.toLower⟩

/-- Auxiliary for `pySplit`: walk the characters, accumulating the current
word (reversed) and emitting maximal non-whitespace runs. -/
def pySplitAux : List Char → List Char → List String
  | [], acc => if acc.isEmpty then [] else [⟨acc.reverse⟩]
  | c :: cs, acc =>
    if c.isWhitespace then
      (if acc.isEmpty then pySplitAux cs [] else (⟨acc.reverse⟩ : String) :: pySplitAux cs [])
    else pySplitAux cs (c :: acc)

/-- Python `str.split()` with no argument: split on runs of whitespace,
dropping empty pieces. -/
def pySplit (s : String) : List String := pySplitAux s.data []

/-- Auxiliary for `containsChars`: does the pattern occur at the head? -/
def startsWithChars : List Char → List Char → Bool
  | _, [] => true
  | [], _ :: _ => false
  | c :: cs, p :: ps => c == p && startsWithChars cs ps

/-- Substring occurrence on character lists. -/
def containsChars : List Char → List Char → Bool
  | [], pat => pat.isEmpty
  | c :: cs, pat => startsWithChars (c :: cs) pat || containsChars cs pat

/-- Python `pat in s`: substring containment. -/
def strContains (s pat : String) : Bool := containsChars s.data pat.data

/-! ## Guard rail (src/cai_trial.py:131-138, collapsed per spec note 9) -/

/-- The allow-list of the input guard rail, `src/cai_trial.py:131-134`. -/
def finance_keywords : List String :=
  ["revenue", "profit", "financial", "income", "expense", "cash",
   "growth", "market", "cost", "margin", "operating"]

/-- The input guard-rail predicate, `src/cai_trial.py:136`:
`any(word in query.lower() for word in finance_keywords)`. -/
def is_in_domain (q : String) : Bool :=
  finance_keywords.any (fun word => strContains (pyLower q) word)

/-! ## Chunking (src/cai_trial.py:37-56) -/

/-- The `while i < len(words)` loop of `chunk_text`
(`src/cai_trial.py:52-55`), with explicit fuel.  Each iteration emits
`" ".join(words[i:i + chunk_size])` and advances `i` by
`chunk_size - overlap`.  The fuel models the loop counter: when
`overlap < chunk_size` a fuel of `words.length` is enough (the claim
`c10` proves the result is then fuel-insensitive, i.e. the loop
terminates). -/
def chunkLoop (words : List String) (chunk_size overlap : ℕ) : ℕ → ℕ → List String
  | 0, _ => []
  | fuel + 1, i =>
    if i < words.length then
      (" ".intercalate ((words.drop i).take chunk_size))
        :: chunkLoop words chunk_size overlap fuel (i + (chunk_size - overlap))
    else []

/-- `chunk_text(text, chunk_size, overlap)`, `src/cai_trial.py:37-56`:
split `text` into overlapping chunks of `chunk_size` words. -/
def chunk_text (text : String) (chunk_size overlap : ℕ) : List String :=
  let words := pySplit text
  chunkLoop words chunk_size overlap words.length 0

/-! ## Pipeline error and output types -/

/-- Runtime failures that can escape the pipeline: the FAISS dimension
assertion and a failure of the external cross-encoder scorer. -/
inductive PipeError where
  | dimensionMismatch
  | scorerFailure
deriving DecidableEq

/-- The value `retrieve` produces.  `result` is Python's return value:
`none` models `return None` (guard-rail rejection) and `some (t, s, r)`
models the tuple `(top_candidate, top_score, ranked_candidates)`.
`rejectNote` and `lowConfNote` record whether `st.warning` /
`st.info("Low confidence...")` were emitted. -/
structure RetrieveOutput where
  result : Option (String × ℚ × List (String × ℚ))
  rejectNote : Bool
  lowConfNote : Bool
deriving DecidableEq

/-- Python `chunks[i]` for the index lists produced by the retrievers
(indices are always in range there, so the default is never read). -/
def chunkTextOf (chunks : List String) (i : ℕ) : String := chunks.getD i ""

/-! ## Sorting relations used to model `np.argsort` and FAISS ordering -/

/-- Comparator for ascending argsort over a score array: by score, with
ties by ascending index.  For the distinct indices `0, ..., n-1` this is
exactly what a stable ascending `np.argsort` produces. -/
def argAsc (s : List ℚ) (i j : ℕ) : Prop :=
  s.getD i 0 < s.getD j 0 ∨ (s.getD i 0 = s.getD j 0 ∧ i ≤ j)

/-- Comparator for a descending sort of indices: by descending score,
with ties by descending index.  Definitionally `argAsc s j i`. -/
def argDesc (s : List ℚ) (i j : ℕ) : Prop :=
  s.getD j 0 < s.getD i 0 ∨ (s.getD j 0 = s.getD i 0 ∧ j ≤ i)

/-- Comparator following the spec's words for `top_k`: by descending
score, ties by ascending chunk id. -/
def argDescTieAsc (s : List ℚ) (i j : ℕ) : Prop :=
  s.getD j 0 < s.getD i 0 ∨ (s.getD i 0 = s.getD j 0 ∧ i ≤ j)

instance (s : List ℚ) : DecidableRel (argAsc s) := fun i j =>
  inferInstanceAs (Decidable (_ ∨ _))

instance (s : List ℚ) : DecidableRel (argDesc s) := fun i j =>
  inferInstanceAs (Decidable (_ ∨ _))

instance (s : List ℚ) : DecidableRel (argDescTieAsc s) := fun i j =>
  inferInstanceAs (Decidable (_ ∨ _))

instance (s : List ℚ) : IsTotal ℕ (argAsc s) := by
  constructor
  intro i j
  rcases lt_trichotomy (s.getD i 0) (s.getD j 0) with h | h | h
  · exact Or.inl (Or.inl h)
  · rcases Nat.le_total i j with hij | hij
    · exact Or.inl (Or.inr ⟨h, hij⟩)
    · exact Or.inr (Or.inr ⟨h.symm, hij⟩)
  · exact Or.inr (Or.inl h)

instance (s : List ℚ) : IsTrans ℕ (argAsc s) := by
  constructor
  intro i j k hij hjk
  rcases hij with h | ⟨he, hle⟩
  · rcases hjk with h' | ⟨he', _⟩
    · exact Or.inl (h.trans h')
    · exact Or.inl (he' ▸ h)
  · rcases hjk with h' | ⟨he', hle'⟩
    · exact Or.inl (he ▸ h')
    · exact Or.inr ⟨he.trans he', hle.trans hle'⟩

instance (s : List ℚ) : IsTotal ℕ (argDesc s) := by
  constructor
  intro i j
  rcases total_of (argAsc s) j i with h | h
  · exact Or.inl h
  · exact Or.inr h

instance (s : List ℚ) : IsTrans ℕ (argDesc s) := by
  constructor
  intro i j k hij hjk
  have h1 : argAsc s j i := hij
  have h2 : argAsc s k j := hjk
  have h3 : argAsc s k i := IsTrans.trans k j i h2 h1
  exact h3

instance (s : List ℚ) : IsAntisymm ℕ (argDesc s) := by
  constructor
  intro i j hij hji
  rcases hij with h | ⟨he, hle⟩
  · rcases hji with h' | ⟨he', _⟩
    · exact absurd h' h.asymm
    · exfalso
      rw [he'] at h
      exact lt_irrefl _ h
  · rcases hji with h' | ⟨_, hle'⟩
    · exfalso
      rw [he] at h'
      exact lt_irrefl _ h'
    · exact Nat.le_antisymm hle' hle

/-- Stable ascending `np.argsort(s)`: the indices `0, ..., n-1` sorted by
score (ties in ascending index order, which is what a stable sort of the
initially ascending index list produces). -/
def argsort (s : List ℚ) : List ℕ :=
  List.insertionSort (argAsc s) (List.range s.length)

/-! ## Embedding index (src/cai_trial.py:81-97 and 144-148) -/

/-- The FAISS flat L2 index built by `create_embedding_index`:
a fixed dimension `d` and the stored chunk vectors. -/
structure EmbIndex where
  dim : ℕ
  vectors : List (List ℚ)
deriving DecidableEq

/-- `create_embedding_index(chunks, model)`, `src/cai_trial.py:81-97`:
embed every chunk and build a flat L2 index whose dimension is
`embeddings.shape[1]`, the length of the (first) embedding vector. -/
def create_embedding_index (embed : String → List ℚ) (chunks : List String) : EmbIndex :=
  let embeddings := chunks.map embed
  ⟨(embeddings.headD []).length, embeddings⟩

/-- Squared Euclidean distance of two vectors. -/
def sqdist (u v : List ℚ) : ℚ :=
  ((u.zip v).map (fun p => (p.1 - p.2) ^ 2)).sum

/-- Modelled from the spec: `EmbeddingIndex.search` is
`faiss.IndexFlatL2.search`, external library code not in this
repository.  Per the spec (section 4.1) it returns the `k` stored ids of
smallest squared L2 distance to the query vector, ascending, ties broken
by ascending chunk id, and fails with `DimensionMismatch` when the query
vector's length differs from the index's fixed dimension (the FAISS
Python wrapper asserts the shape), never truncating or padding. -/
def EmbIndex.search (idx : EmbIndex) (qv : List ℚ) (k : ℕ) :
    Except PipeError (List ℕ) :=
  if qv.length = idx.dim then
    let dists := idx.vectors.map (fun v => sqdist qv v)
    Except.ok ((List.insertionSort (argAsc dists) (List.range idx.vectors.length)).take k)
  else
    Except.error PipeError.dimensionMismatch

/-! ## BM25 lexical index (src/cai_trial.py:99-111 and 150-154) -/

/-- The BM25 index built by `create_bm25_index`: the tokenized corpus
(the `BM25Okapi` statistics are all derived from it). -/
structure BM25Index where
  corpus : List (List String)
deriving DecidableEq

/-- `create_bm25_index(chunks)`, `src/cai_trial.py:99-111`:
`tokenized_corpus = [chunk.lower().split() for chunk in chunks]`. -/
def create_bm25_index (chunks : List String) : BM25Index :=
  ⟨chunks.map (fun chunk => pySplit (pyLower chunk))⟩

/-- Term frequency of `t` in document `d`, as a rational. -/
def termFreq (d : List String) (t : String) : ℚ :=
  ((d.filter (fun w => w == t)).length : ℚ)

/-- Modelled from the spec: the BM25 inverse document frequency
`idf(term) = ln((N - df(term) + 0.5) / (df(term) + 0.5) + 1)` of the
external `rank_bm25` library.  The transcendental `ln` cannot be
computed exactly on rationals, so it is passed in as a parameter. -/
def bm25_idf (ln : ℚ → ℚ) (corpus : List (List String)) (t : String) : ℚ :=
  let n : ℚ := (corpus.length : ℚ)
  let df : ℚ := ((corpus.filter (fun d => d.contains t)).length : ℚ)
  ln ((n - df + 1/2) / (df + 1/2) + 1)

/-- Modelled from the spec: the saturating BM25 score of one document,
`sum over query terms of idf(t) * (tf * (k1+1)) / (tf + k1 * (1 - b + b * |d| / avg_len))`
with `k1 = 1.5`, `b = 0.75` (`rank_bm25.BM25Okapi.get_scores` is
external library code not in this repository). -/
def bm25_score (ln : ℚ → ℚ) (corpus : List (List String)) (d : List String)
    (query_tokens : List String) : ℚ :=
  let n : ℚ := (corpus.length : ℚ)
  let avgdl : ℚ := ((corpus.map (fun c => (c.length : ℚ))).sum) / n
  let dl : ℚ := (d.length : ℚ)
  query_tokens.foldl
    (fun acc t =>
      let f := termFreq d t
      acc + bm25_idf ln corpus t * (f * (3/2 + 1)) / (f + (3/2) * (1 - 3/4 + (3/4) * dl / avgdl)))
    0

/-- `bm25.get_scores(tokenized_query)`, `src/cai_trial.py:152`: one BM25
score per chunk, in corpus order. -/
def bm25_get_scores (ln : ℚ → ℚ) (bm25 : BM25Index) (query_tokens : List String) : List ℚ :=
  bm25.corpus.map (fun d => bm25_score ln bm25.corpus d query_tokens)

/-- `np.argsort(bm25_scores)[::-1][:top_k]`, `src/cai_trial.py:153`:
ascending argsort, reversed, truncated to `top_k`. -/
def bm25_top_indices (scores : List ℚ) (top_k : ℕ) : List ℕ :=
  ((argsort scores).reverse).take top_k

/-- Definition following the spec's words for `LexicalIndex.top_k`
(section 4.2): the `k` chunk ids with highest score, descending, ties
broken by ascending chunk id. -/
def spec_top_k (scores : List ℚ) (k : ℕ) : List ℕ :=
  (List.insertionSort (argDescTieAsc scores) (List.range scores.length)).take k

/-- The characterisation the code actually satisfies: descending score
with ties broken by descending chunk id. -/
def desc_top_k (scores : List ℚ) (k : ℕ) : List ℕ :=
  (List.insertionSort (argDesc scores) (List.range scores.length)).take k

/-! ## Fusion (src/cai_trial.py:156-159) -/

/-- `candidate_set = list(set(faiss_candidates + bm25_candidates))`,
`src/cai_trial.py:157`.  Python's `set` iterates its distinct elements
in an unspecified order; the embedding picks the canonical
first-append-order deduplication `List.dedup`. -/
def fuse (faiss_candidates bm25_candidates : List String) : List String :=
  (faiss_candidates ++ bm25_candidates).dedup

/-! ## Reranking (src/cai_trial.py:161-164) -/

/-- The key callable `lambda x: x[1]` with `reverse=True`: the sort
relation of `sorted(..., key=lambda x: x[1], reverse=True)`, placing `x`
before `y` when `y`'s score is at most `x`'s. -/
def rerankLe (x y : String × ℚ) : Prop := y.2 ≤ x.2

instance : DecidableRel rerankLe := fun x y =>
  inferInstanceAs (Decidable (y.2 ≤ x.2))

instance : IsTotal (String × ℚ) rerankLe :=
  ⟨fun x y => (le_total y.2 x.2).elim Or.inl Or.inr⟩

instance : IsTrans (String × ℚ) rerankLe :=
  ⟨fun _ _ _ hxy hyz => le_trans hyz hxy⟩

/-- `sorted(zip(candidate_set, cross_scores), key=lambda x: x[1], reverse=True)`,
`src/cai_trial.py:164`.  Python's `sorted` is stable; a stable descending
sort is `insertionSort` with `rerankLe` (an inserted element goes in
front of the equal-scored elements that follow it in the input). -/
def rank_pairs (pairs : List (String × ℚ)) : List (String × ℚ) :=
  List.insertionSort rerankLe pairs

/-- `cross_encoder.predict(cross_inputs)`, `src/cai_trial.py:162-163`:
score every `(query, candidate)` pair with the external cross-encoder.
A failure of the external scorer is an exception, which propagates. -/
def predictAll (cross : String → String → Except PipeError ℚ) (q : String) :
    List String → Except PipeError (List ℚ)
  | [] => Except.ok []
  | c :: cs =>
    match cross q c with
    | Except.error e => Except.error e
    | Except.ok sc =>
      match predictAll cross q cs with
      | Except.error e => Except.error e
      | Except.ok scs => Except.ok (sc :: scs)

/-- The reranking stage, `src/cai_trial.py:161-164`: score all fused
candidates against the query, then stably sort descending by score. -/
def rerank (cross : String → String → Except PipeError ℚ) (q : String)
    (candidate_set : List String) : Except PipeError (List (String × ℚ)) :=
  match predictAll cross q candidate_set with
  | Except.error e => Except.error e
  | Except.ok cross_scores => Except.ok (rank_pairs (candidate_set.zip cross_scores))

/-! ## The retrieval stages and `retrieve` (src/cai_trial.py:116-171) -/

/-- The dense stage, `src/cai_trial.py:144-148`: embed the query, search
the FAISS index, and map the returned indices back to chunk texts
(`faiss_candidates = [chunks[i] for i in indices[0]]`). -/
def dense_candidates (embed : String → List ℚ) (chunks : List String)
    (embedding_index : EmbIndex) (q : String) (top_k : ℕ) :
    Except PipeError (List String) :=
  match embedding_index.search (embed q) top_k with
  | Except.error e => Except.error e
  | Except.ok indices => Except.ok (indices.map (chunkTextOf chunks))

/-- The lexical stage, `src/cai_trial.py:150-154`: tokenize the query,
BM25-score the corpus, select the top indices, and map them back to
chunk texts (`bm25_candidates = [chunks[i] for i in bm25_top_indices]`). -/
def lex_candidates (ln : ℚ → ℚ) (chunks : List String) (bm25 : BM25Index)
    (q : String) (top_k : ℕ) : List String :=
  let tokenized_query := pySplit (pyLower q)
  let bm25_scores := bm25_get_scores ln bm25 tokenized_query
  (bm25_top_indices bm25_scores top_k).map (chunkTextOf chunks)

/-- The sentinel tuple returned when fusion produces no candidates,
`src/cai_trial.py:159`: `return "No relevant information found.", 0, []`. -/
def noResultsOutput : RetrieveOutput :=
  ⟨some ("No relevant information found.", 0, []), false, false⟩

/-- The output of the guard-rail rejection branch,
`src/cai_trial.py:136-138`: `st.warning(...)` then `return None`. -/
def rejectedOutput : RetrieveOutput := ⟨none, true, false⟩

/-- The `Done` output assembled at `src/cai_trial.py:166-171` from the
reranked candidate list: top candidate, top score, full ranked list, and
the low-confidence flag `top_score < 0.3`. -/
def doneOutput (ranked_candidates : List (String × ℚ)) : RetrieveOutput :=
  let top := ranked_candidates.headD ("", 0)
  ⟨some (top.1, top.2, ranked_candidates), false, decide (top.2 < 3/10)⟩

/-- `retrieve(query, chunks, embedding_index, embeddings, embed_model,
bm25, tokenized_corpus, cross_encoder, top_k)`, `src/cai_trial.py:116-171`
with the nested-definition artifact collapsed (spec design note 9):
guard rail, FAISS retrieval, BM25 retrieval, fusion, cross-encoder
reranking, low-confidence flagging.  The external models are the
parameters `embed` (sentence embedding), `ln` (the logarithm inside the
library BM25), and `cross` (the cross-encoder scorer, which may fail). -/
def retrieve (embed : String → List ℚ) (ln : ℚ → ℚ)
    (cross : String → String → Except PipeError ℚ)
    (chunks : List String) (embedding_index : EmbIndex) (bm25 : BM25Index)
    (q : String) (top_k : ℕ) : Except PipeError RetrieveOutput :=
  if is_in_domain q then
    match dense_candidates embed chunks embedding_index q top_k with
    | Except.error e => Except.error e
    | Except.ok faiss_candidates =>
      let bm25_candidates := lex_candidates ln chunks bm25 q top_k
      let candidate_set := fuse faiss_candidates bm25_candidates
      if candidate_set = [] then Except.ok noResultsOutput
      else
        match rerank cross q candidate_set with
        | Except.error e => Except.error e
        | Except.ok ranked_candidates => Except.ok (doneOutput ranked_candidates)
  else Except.ok rejectedOutput

/-! ## The pipeline state machine (spec section 4.6) -/

/-- The states of the retrieval pipeline of spec section 4.6:
`Validating → Retrieving → Fusing → Reranking → Done`, with terminal
`done` covering the `Rejected`, `NoResults` and successful outcomes
(they are distinguished by the carried `RetrieveOutput`) and `failed`
covering a propagated exception. -/
inductive PState where
  | validating (q : String)
  | retrieving (q : String)
  | fusing (q : String) (faiss_candidates bm25_candidates : List String)
  | reranking (q : String) (candidate_set : List String)
  | done (out : RetrieveOutput)
  | failed (e : PipeError)
deriving DecidableEq

/-- One synchronous transition of the pipeline, with the corpus, the
built indexes and the external models fixed.  Each constructor performs
exactly one stage of `retrieve`. -/
inductive PStep (embed : String → List ℚ) (ln : ℚ → ℚ)
    (cross : String → String → Except PipeError ℚ)
    (chunks : List String) (embedding_index : EmbIndex) (bm25 : BM25Index)
    (top_k : ℕ) : PState → PState → Prop where
  | reject {q} : is_in_domain q = false →
      PStep embed ln cross chunks embedding_index bm25 top_k
        (PState.validating q) (PState.done rejectedOutput)
  | accept {q} : is_in_domain q = true →
      PStep embed ln cross chunks embedding_index bm25 top_k
        (PState.validating q) (PState.retrieving q)
  | retrieveOk {q fc} :
      dense_candidates embed chunks embedding_index q top_k = Except.ok fc →
      PStep embed ln cross chunks embedding_index bm25 top_k
        (PState.retrieving q)
        (PState.fusing q fc (lex_candidates ln chunks bm25 q top_k))
  | retrieveErr {q e} :
      dense_candidates embed chunks embedding_index q top_k = Except.error e →
      PStep embed ln cross chunks embedding_index bm25 top_k
        (PState.retrieving q) (PState.failed e)
  | fuseEmpty {q a b} : fuse a b = [] →
      PStep embed ln cross chunks embedding_index bm25 top_k
        (PState.fusing q a b) (PState.done noResultsOutput)
  | fuseCons {q a b} : fuse a b ≠ [] →
      PStep embed ln cross chunks embedding_index bm25 top_k
        (PState.fusing q a b) (PState.reranking q (fuse a b))
  | rerankOk {q cs ranked} : rerank cross q cs = Except.ok ranked →
      PStep embed ln cross chunks embedding_index bm25 top_k
        (PState.reranking q cs) (PState.done (doneOutput ranked))
  | rerankErr {q cs e} : rerank cross q cs = Except.error e →
      PStep embed ln cross chunks embedding_index bm25 top_k
        (PState.reranking q cs) (PState.failed e)

/-- The reflexive-transitive closure of `PStep`: a (partial) run of the
pipeline. -/
def PSteps (embed : String → List ℚ) (ln : ℚ → ℚ)
    (cross : String → String → Except PipeError ℚ)
    (chunks : List String) (embedding_index : EmbIndex) (bm25 : BM25Index)
    (top_k : ℕ) : PState → PState → Prop :=
  Relation.ReflTransGen (PStep embed ln cross chunks embedding_index bm25 top_k)

/-! ## Supporting lemmas -/

/-- Fusion is empty exactly when both inputs are. -/
lemma fuse_eq_nil (a b : List String) : fuse a b = [] ↔ a = [] ∧ b = [] := by
  rw [fuse, List.dedup_eq_nil, List.append_eq_nil]

/-- A scorer that never fails scores the whole candidate list. -/
lemma predictAll_ok (f : String → String → ℚ) (q : String) (cs : List String) :
    predictAll (fun a b => Except.ok (f a b)) q cs = Except.ok (cs.map (f q)) := by
  induction cs with
  | nil => rfl
  | cons c t ih => simp [predictAll, ih]

/-- A scorer failure on the first candidate propagates out of `predictAll`. -/
lemma predictAll_error_head (cross : String → String → Except PipeError ℚ)
    (q c : String) (cs : List String) (e : PipeError) (h : cross q c = Except.error e) :
    predictAll cross q (c :: cs) = Except.error e := by
  simp [predictAll, h]

/-- Stability of one ordered insertion: inserting with `rerankLe` does not
change the subsequence of any fixed score `s`, because the element passes
only over strictly greater scores. -/
lemma filter_orderedInsert_rerank (s : ℚ) (a : String × ℚ) (l : List (String × ℚ)) :
    (List.orderedInsert rerankLe a l).filter (fun x => decide (x.2 = s)) =
      ((a :: l).filter (fun x => decide (x.2 = s))) := by
  induction l with
  | nil => rfl
  | cons b t ih =>
    rw [List.orderedInsert]
    by_cases hab : rerankLe a b
    · rw [if_pos hab]
    · rw [if_neg hab]
      have hlt : a.2 < b.2 := lt_of_not_le hab
      by_cases ha : a.2 = s <;> by_cases hb : b.2 = s
      · exfalso
        rw [ha, hb] at hlt
        exact lt_irrefl _ hlt
      · simp [List.filter_cons, ha, hb, ih]
      · simp [List.filter_cons, ha, hb, ih]
      · simp [List.filter_cons, ha, hb, ih]

/-- Stability of the reranking sort: for every score `s`, the
`s`-scored candidates of `rank_pairs l` are those of `l`, in order. -/
lemma filter_rank_pairs (s : ℚ) (l : List (String × ℚ)) :
    (rank_pairs l).filter (fun x => decide (x.2 = s)) =
      l.filter (fun x => decide (x.2 = s)) := by
  induction l with
  | nil => rfl
  | cons a t ih =>
    rw [rank_pairs, List.insertionSort]
    rw [filter_orderedInsert_rerank, List.filter_cons, List.filter_cons]
    rw [rank_pairs] at ih
    rw [ih]

/-- Mapping by a function injective on the list commutes with `dedup`. -/
lemma dedup_map_of_inj_on {α β : Type} [DecidableEq α] [DecidableEq β]
    (f : α → β) : ∀ (l : List α),
    (∀ i ∈ l, ∀ j ∈ l, f i = f j → i = j) →
    (l.map f).dedup = (l.dedup).map f := by
  intro l
  induction l with
  | nil => intro _; rfl
  | cons x t ih =>
    intro hinj
    have ih' := ih (fun i hi j hj hf =>
      hinj i (List.mem_cons_of_mem _ hi) j (List.mem_cons_of_mem _ hj) hf)
    by_cases hx : x ∈ t
    · rw [List.map_cons, List.dedup_cons_of_mem (List.mem_map_of_mem f hx),
        List.dedup_cons_of_mem hx, ih']
    · have hfx : f x ∉ t.map f := by
        intro hmem
        rcases List.mem_map.mp hmem with ⟨j, hj, hfj⟩
        exact hx (hinj j (List.mem_cons_of_mem _ hj) x (List.mem_cons_self _ _)
          hfj ▸ hj)
      rw [List.map_cons, List.dedup_cons_of_not_mem hfx,
        List.dedup_cons_of_not_mem hx, List.map_cons, ih']

/-- Reversing the stable ascending argsort yields exactly the sort by
descending score with ties broken by descending index: both sides are
sorted for the antisymmetric total order `argDesc s` and are permutations
of `range s.length`. -/
lemma reverse_argsort (s : List ℚ) :
    (argsort s).reverse =
      List.insertionSort (argDesc s) (List.range s.length) := by
  have hperm : (argsort s).reverse.Perm
      (List.insertionSort (argDesc s) (List.range s.length)) :=
    ((List.reverse_perm (argsort s)).trans
      (List.perm_insertionSort (argAsc s) (List.range s.length))).trans
      (List.perm_insertionSort (argDesc s) (List.range s.length)).symm
  have hsorted1 : List.Sorted (argDesc s) ((argsort s).reverse) := by
    rw [List.Sorted, List.pairwise_reverse]
    exact List.sorted_insertionSort (argAsc s) (List.range s.length)
  have hsorted2 : List.Sorted (argDesc s)
      (List.insertionSort (argDesc s) (List.range s.length)) :=
    List.sorted_insertionSort (argDesc s) (List.range s.length)
  exact List.eq_of_perm_of_sorted hperm hsorted1 hsorted2

/-! ## State-machine lemmas -/

/-- Each pipeline state has at most one successor: the step relation is
deterministic. -/
lemma pstep_det {embed ln cross chunks eidx bm25 k} {s t₁ t₂ : PState}
    (h₁ : PStep embed ln cross chunks eidx bm25 k s t₁)
    (h₂ : PStep embed ln cross chunks eidx bm25 k s t₂) : t₁ = t₂ := by
  cases h₁ <;> cases h₂ <;> simp_all

/-- `done` states are terminal. -/
lemma pstep_done_terminal {embed ln cross chunks eidx bm25 k}
    {o : RetrieveOutput} {t : PState} :
    ¬ PStep embed ln cross chunks eidx bm25 k (PState.done o) t := by
  intro h
  cases h

/-- A run of the deterministic pipeline reaches at most one `done`
state. -/
lemma psteps_done_unique {embed ln cross chunks eidx bm25 k}
    {s : PState} {o₁ o₂ : RetrieveOutput}
    (h₁ : PSteps embed ln cross chunks eidx bm25 k s (PState.done o₁))
    (h₂ : PSteps embed ln cross chunks eidx bm25 k s (PState.done o₂)) :
    o₁ = o₂ := by
  rw [PSteps] at h₁ h₂
  revert h₂
  induction h₁ using Relation.ReflTransGen.head_induction_on with
  | refl =>
    intro h₂
    rcases Relation.ReflTransGen.cases_head h₂ with heq | ⟨c, hc, _⟩
    · simpa using heq
    · exact absurd hc pstep_done_terminal
  | head hstep hrest ih =>
    intro h₂
    rcases Relation.ReflTransGen.cases_head h₂ with heq | ⟨c', hc', hrest'⟩
    · exfalso
      rw [heq] at hstep
      exact pstep_done_terminal hstep
    · have hcc := pstep_det hstep hc'
      rw [← hcc] at hrest'
      exact ih hrest'

/-- With a positive advance (`overlap < chunk_size`), any fuel of at
least `words.length - i` computes the same chunk list: the loop
terminates. -/
lemma chunkLoop_fuel_irrel (words : List String) (cs ov : ℕ) (hstep : ov < cs) :
    ∀ (f₁ f₂ i : ℕ), words.length - i ≤ f₁ → words.length - i ≤ f₂ →
      chunkLoop words cs ov f₁ i = chunkLoop words cs ov f₂ i := by
  intro f₁
  induction f₁ with
  | zero =>
    intro f₂ i h1 h2
    have hni : ¬ i < words.length := by omega
    cases f₂ with
    | zero => rfl
    | succ f => simp [chunkLoop, hni]
  | succ f ih =>
    intro f₂ i h1 h2
    cases f₂ with
    | zero =>
      have hni : ¬ i < words.length := by omega
      simp [chunkLoop, hni]
    | succ f' =>
      by_cases hi : i < words.length
      · simp only [chunkLoop, if_pos hi]
        congr 1
        exact ih f' (i + (cs - ov)) (by omega) (by omega)
      · simp [chunkLoop, hi]

/-- Every word position `j` at or beyond the current index is covered by
some chunk the loop still emits: the window starting at the last advance
not exceeding `j` has width `chunk_size` which exceeds the advance. -/
lemma chunkLoop_covers (words : List String) (cs ov : ℕ) (hstep : ov < cs) :
    ∀ (fuel i j : ℕ), j < words.length → i ≤ j →
      words.length - i ≤ fuel →
      ∃ c ∈ chunkLoop words cs ov fuel i,
        ∃ ws, c = " ".intercalate ws ∧ words.getD j "" ∈ ws := by
  intro fuel
  induction fuel with
  | zero =>
    intro i j hj hij hf
    omega
  | succ f ih =>
    intro i j hj hij hf
    have hi : i < words.length := lt_of_le_of_lt hij hj
    rw [chunkLoop, if_pos hi]
    by_cases hjc : j < i + cs
    · refine ⟨" ".intercalate ((words.drop i).take cs), List.mem_cons_self _ _,
        (words.drop i).take cs, rfl, ?_⟩
      have h4 : j - i < ((words.drop i).take cs).length := by
        rw [List.length_take, List.length_drop]
        omega
      have h5 : ((words.drop i).take cs).get ⟨j - i, h4⟩ = words.getD j "" := by
        rw [List.get_eq_getElem, List.getElem_take, List.getElem_drop,
          List.getD_eq_getElem _ _ hj]
        congr 1
        show i + (j - i) = j
        omega
      have h6 := List.get_mem ((words.drop i).take cs) (j - i) h4
      rwa [h5] at h6
    · obtain ⟨c, hc, hws⟩ := ih (i + (cs - ov)) j hj (by omega) (by omega)
      exact ⟨c, List.mem_cons_of_mem _ hc, hws⟩

/-- When the guard rail admits the query, `retrieve` never emits the
rejection warning: every successful outcome comes from the no-results or
the reranked branch, both of which carry `rejectNote = false` and a
`some` result. -/
lemma retrieve_admitted_shape {embed : String → List ℚ} {ln : ℚ → ℚ}
    {cross : String → String → Except PipeError ℚ} {chunks : List String}
    {eidx : EmbIndex} {bm25 : BM25Index} {q : String} {k : ℕ} {o : RetrieveOutput}
    (hq : is_in_domain q = true)
    (h : retrieve embed ln cross chunks eidx bm25 q k = Except.ok o) :
    o.rejectNote = false ∧ o.result ≠ none := by
  simp only [retrieve, hq, if_true] at h
  cases hd : dense_candidates embed chunks eidx q k with
  | error e =>
    rw [hd] at h
    simp at h
  | ok fc =>
    rw [hd] at h
    dsimp only at h
    by_cases hf : fuse fc (lex_candidates ln chunks bm25 q k) = []
    · rw [if_pos hf] at h
      injection h with h'
      rw [← h']
      simp [noResultsOutput]
    · rw [if_neg hf] at h
      cases hr : rerank cross q (fuse fc (lex_candidates ln chunks bm25 q k)) with
      | error e =>
        rw [hr] at h
        simp at h
      | ok rk =>
        rw [hr] at h
        injection h with h'
        rw [← h']
        simp [doneOutput]

/-- Claim C1: `retrieve` returns the `Rejected` outcome (the `None`
return with the warning note) exactly when the lower-cased query
contains no term of the keyword allow-list; and on rejection the
pipeline short-circuits — the outcome does not depend on the embedding
model, the BM25 logarithm, or the cross-encoder, so no retriever is
invoked. -/
theorem c1_rejected_iff_no_keyword
    (embed embed' : String → List ℚ) (ln ln' : ℚ → ℚ)
    (cross cross' : String → String → Except PipeError ℚ)
    (chunks : List String) (eidx : EmbIndex) (bm25 : BM25Index)
    (q : String) (k : ℕ) :
    (retrieve embed ln cross chunks eidx bm25 q k = Except.ok rejectedOutput ↔
      is_in_domain q = false) ∧
    (is_in_domain q = false →
      retrieve embed ln cross chunks eidx bm25 q k =
        retrieve embed' ln' cross' chunks eidx bm25 q k) := by
  constructor
  · constructor
    · intro h
      cases hq : is_in_domain q
      · rfl
      · have := (retrieve_admitted_shape hq h).1
        simp [rejectedOutput] at this
    · intro hq
      simp [retrieve, hq]
  · intro hq
    simp [retrieve, hq]

/-- Claim C1 witness: the spec's scenario query contains no finance
keyword, so two pipelines with entirely different external models return
the same (rejected) outcome. -/
theorem c1_rejected_iff_no_keyword_witness :
    retrieve (fun _ => ([5] : List ℚ)) (fun x => x) (fun _ _ => Except.ok 1) []
      ⟨0, []⟩ ⟨[]⟩ "What is the capital of France?" 5 =
    retrieve (fun _ => ([] : List ℚ)) (fun _ => 0)
      (fun _ _ => Except.error PipeError.scorerFailure) []
      ⟨0, []⟩ ⟨[]⟩ "What is the capital of France?" 5 :=
  (c1_rejected_iff_no_keyword _ _ _ _ _ _ [] ⟨0, []⟩ ⟨[]⟩
    "What is the capital of France?" 5).2 (by decide)

/-- Claim C2 counterexample: fusion is a union by chunk *text*, not by
chunk id.  With the corpus `["x", "x"]` (two ids, identical text), the
dense result `[0]` and the lexical result `[1]` fuse into one candidate,
while the distinct chunk ids number two. -/
theorem c2_fusion_by_id_counterexample :
    ¬ ((fuse (([0] : List ℕ).map (chunkTextOf ["x", "x"]))
          (([1] : List ℕ).map (chunkTextOf ["x", "x"]))).length =
        (([0] ++ [1] : List ℕ).dedup).length) := by decide

/-- Claim C2 (amended): the fused candidate set has no duplicates and
its size equals the number of distinct chunk *texts* occurring among the
inputs; distinct chunk ids carrying identical text collapse as well.
When the id-to-text assignment is injective on the candidate ids, the
originally claimed count (distinct chunk ids) is recovered. -/
theorem c2_fusion_by_text_amended (chunks : List String) (a b : List ℕ) :
    (fuse (a.map (chunkTextOf chunks)) (b.map (chunkTextOf chunks))).Nodup ∧
    (fuse (a.map (chunkTextOf chunks)) (b.map (chunkTextOf chunks))).length =
      (((a ++ b).map (chunkTextOf chunks)).dedup).length ∧
    ((∀ i ∈ a ++ b, ∀ j ∈ a ++ b, chunkTextOf chunks i = chunkTextOf chunks j → i = j) →
      (fuse (a.map (chunkTextOf chunks)) (b.map (chunkTextOf chunks))).length =
        ((a ++ b).dedup).length) := by
  have hm : a.map (chunkTextOf chunks) ++ b.map (chunkTextOf chunks) =
      (a ++ b).map (chunkTextOf chunks) := (List.map_append (chunkTextOf chunks) a b).symm
  refine ⟨List.nodup_dedup _, ?_, ?_⟩
  · rw [fuse, hm]
  · intro hinj
    rw [fuse, hm, dedup_map_of_inj_on _ _ hinj, List.length_map]

/-- Claim C2 witness: on a corpus with distinct texts the amended count
coincides with the id count. -/
theorem c2_fusion_by_text_amended_witness :
    (fuse (([0] : List ℕ).map (chunkTextOf ["x", "y"]))
      (([1] : List ℕ).map (chunkTextOf ["x", "y"]))).length =
    (([0] ++ [1] : List ℕ).dedup).length :=
  (c2_fusion_by_text_amended ["x", "y"] [0] [1]).2.2 (by decide)

/-- Claim C3: for every query, candidate sequence and (total) pairwise
scorer, the reranked output is sorted non-increasing by score
(`rerankLe` places higher scores first), and for every score value the
candidates carrying it appear in the same relative order as in the input
fusion sequence (stability of Python's `sorted`). -/
theorem c3_rerank_sorted_stable (scorefn : String → String → ℚ) (q : String)
    (candidate_set : List String) :
    ∃ ranked,
      rerank (fun a b => Except.ok (scorefn a b)) q candidate_set = Except.ok ranked ∧
      List.Sorted rerankLe ranked ∧
      ∀ s : ℚ, ranked.filter (fun x => decide (x.2 = s)) =
        (candidate_set.map (fun c => (c, scorefn q c))).filter
          (fun x => decide (x.2 = s)) := by
  refine ⟨rank_pairs (candidate_set.zip (candidate_set.map (scorefn q))), ?_, ?_, ?_⟩
  · rw [rerank, predictAll_ok]
  · exact List.sorted_insertionSort rerankLe _
  · intro s
    rw [filter_rank_pairs]
    have hz := List.zip_map' id (scorefn q) candidate_set
    simp only [List.map_id, id_eq] at hz
    rw [hz]

/-- Concrete evaluation shared by several witnesses: on the one-chunk
corpus `["revenue"]`, with the BM25 logarithm frozen to the constant 1,
the lexical stage returns the single chunk. -/
lemma lex_candidates_revenue :
    lex_candidates (fun _ => (1 : ℚ)) ["revenue"] (create_bm25_index ["revenue"])
      "revenue" 1 = ["revenue"] := by
  have h1 : create_bm25_index ["revenue"] = ⟨[["revenue"]]⟩ := by decide
  have h2 : pySplit (pyLower "revenue") = ["revenue"] := by decide
  have h3 : bm25_score (fun _ => (1 : ℚ)) [["revenue"]] ["revenue"] ["revenue"] = 1 := by
    simp [bm25_score, bm25_idf, termFreq]
    norm_num
  have hsc : bm25_get_scores (fun _ => (1 : ℚ)) (create_bm25_index ["revenue"])
      (pySplit (pyLower "revenue")) = [1] := by
    rw [h1, h2]
    simp [bm25_get_scores, h3]
  simp only [lex_candidates]
  rw [hsc]
  decide

/-- Claim C4: with the external models deterministic (they are fixed
functional parameters), building the indexes from the same chunk
sequence in each run and issuing the same query, any two complete
pipeline runs reach the same final `RetrieveOutput` — same top chunk,
same confidence, same ranked sequence.  This is determinism of the
pipeline step relation. -/
theorem c4_retrieval_deterministic (embed : String → List ℚ) (ln : ℚ → ℚ)
    (cross : String → String → Except PipeError ℚ) (chunks : List String)
    (k : ℕ) (q : String) (o₁ o₂ : RetrieveOutput)
    (h₁ : PSteps embed ln cross chunks (create_embedding_index embed chunks)
      (create_bm25_index chunks) k (PState.validating q) (PState.done o₁))
    (h₂ : PSteps embed ln cross chunks (create_embedding_index embed chunks)
      (create_bm25_index chunks) k (PState.validating q) (PState.done o₂)) :
    o₁ = o₂ :=
  psteps_done_unique h₁ h₂

/-- Claim C4 witness: an admitted query on a concrete corpus, run twice
through the state machine (admission, retrieval, empty fusion, sentinel). -/
theorem c4_retrieval_deterministic_witness : noResultsOutput = noResultsOutput := by
  have hrun : PSteps (fun _ => ([] : List ℚ)) (fun _ => (1 : ℚ))
      (fun _ _ => Except.ok (0 : ℚ)) ["revenue"]
      (create_embedding_index (fun _ => ([] : List ℚ)) ["revenue"])
      (create_bm25_index ["revenue"]) 0
      (PState.validating "revenue") (PState.done noResultsOutput) := by
    refine Relation.ReflTransGen.head (PStep.accept (by decide)) ?_
    refine Relation.ReflTransGen.head (PStep.retrieveOk (rfl :
      dense_candidates (fun _ => ([] : List ℚ)) ["revenue"]
        (create_embedding_index (fun _ => ([] : List ℚ)) ["revenue"]) "revenue" 0 =
      Except.ok [])) ?_
    exact Relation.ReflTransGen.single (PStep.fuseEmpty rfl)
  exact c4_retrieval_deterministic _ _ _ _ _ _ _ _ hrun hrun

/-- Claim C5: on an admitted query whose top reranked score is below the
0.3 threshold, `retrieve` still returns the full result — top candidate,
its score and the whole ranked list — with the low-confidence note set;
the low score never turns the outcome into a rejection or suppresses the
result. -/
theorem c5_low_confidence_flag (embed : String → List ℚ) (ln : ℚ → ℚ)
    (cross : String → String → Except PipeError ℚ) (chunks : List String)
    (eidx : EmbIndex) (bm25 : BM25Index) (q : String) (k : ℕ)
    (fc : List String) (ranked : List (String × ℚ)) (t : String) (s : ℚ)
    (hdom : is_in_domain q = true)
    (hdense : dense_candidates embed chunks eidx q k = Except.ok fc)
    (hne : fuse fc (lex_candidates ln chunks bm25 q k) ≠ [])
    (hrr : rerank cross q (fuse fc (lex_candidates ln chunks bm25 q k)) =
      Except.ok ranked)
    (hhead : ranked.headD ("", 0) = (t, s))
    (hlow : s < 3/10) :
    retrieve embed ln cross chunks eidx bm25 q k =
      Except.ok ⟨some (t, s, ranked), false, true⟩ := by
  simp only [retrieve, hdom, if_true]
  rw [hdense]
  dsimp only
  rw [if_neg hne, hrr]
  simp only [doneOutput, hhead]
  simp [hlow]

/-- Claim C5 witness: the constant-0 scorer puts the top score at 0,
below the 0.3 threshold; the full result comes back flagged. -/
theorem c5_low_confidence_flag_witness :
    retrieve (fun _ => ([] : List ℚ)) (fun _ => (1 : ℚ)) (fun _ _ => Except.ok (0 : ℚ))
      ["revenue"] (create_embedding_index (fun _ => ([] : List ℚ)) ["revenue"])
      (create_bm25_index ["revenue"]) "revenue" 1 =
    Except.ok ⟨some ("revenue", 0, [("revenue", 0)]), false, true⟩ := by
  refine c5_low_confidence_flag (fun _ => ([] : List ℚ)) (fun _ => (1 : ℚ))
    (fun _ _ => Except.ok (0 : ℚ)) ["revenue"]
    (create_embedding_index (fun _ => ([] : List ℚ)) ["revenue"])
    (create_bm25_index ["revenue"]) "revenue" 1 ["revenue"] [("revenue", 0)]
    "revenue" 0 (by decide) rfl ?_ ?_ rfl (by norm_num)
  · rw [lex_candidates_revenue]
    decide
  · rw [lex_candidates_revenue]
    rfl

/-- Claim C6: fusion fails exactly when both retriever outputs are
empty (`fuse_eq_nil`), and in that case `retrieve` returns the
`NoResults` sentinel tuple `("No relevant information found.", 0, [])`
as an ordinary value, not an exception; a non-empty input always gives a
non-empty fusion. -/
theorem c6_no_results_sentinel :
    (∀ a b : List String, fuse a b = [] ↔ a = [] ∧ b = []) ∧
    ∀ (embed : String → List ℚ) (ln : ℚ → ℚ)
      (cross : String → String → Except PipeError ℚ)
      (chunks : List String) (eidx : EmbIndex) (bm25 : BM25Index)
      (q : String) (k : ℕ),
      is_in_domain q = true →
      dense_candidates embed chunks eidx q k = Except.ok [] →
      lex_candidates ln chunks bm25 q k = [] →
      retrieve embed ln cross chunks eidx bm25 q k = Except.ok noResultsOutput := by
  constructor
  · exact fuse_eq_nil
  · intro embed ln cross chunks eidx bm25 q k hdom hdense hlex
    simp only [retrieve, hdom, if_true]
    rw [hdense]
    dsimp only
    simp [hlex, fuse]

/-- Claim C6 witness: with `top_k = 0` both retrievers return the empty
sequence, and `retrieve` returns the sentinel value. -/
theorem c6_no_results_sentinel_witness :
    retrieve (fun _ => ([] : List ℚ)) (fun _ => (0 : ℚ)) (fun _ _ => Except.ok (0 : ℚ))
      ["revenue"] (create_embedding_index (fun _ => ([] : List ℚ)) ["revenue"])
      (create_bm25_index ["revenue"]) "revenue" 0 = Except.ok noResultsOutput :=
  c6_no_results_sentinel.2 _ _ _ _ _ _ "revenue" 0 (by decide) rfl rfl

/-- Claim C7 counterexample: there is no fallback around the
cross-encoder.  On a concrete admitted query with candidates, a failing
scorer makes `retrieve` propagate the failure — the result is the error,
not a result in fusion order with an unscored flag (no such flag exists
in the code). -/
theorem c7_scorer_failure_counterexample :
    retrieve (fun _ => ([] : List ℚ)) (fun _ => (1 : ℚ))
      (fun _ _ => Except.error PipeError.scorerFailure)
      ["revenue"] (create_embedding_index (fun _ => ([] : List ℚ)) ["revenue"])
      (create_bm25_index ["revenue"]) "revenue" 1 =
    Except.error PipeError.scorerFailure := by
  simp only [retrieve, show is_in_domain "revenue" = true by decide, if_true]
  rw [show dense_candidates (fun _ => ([] : List ℚ)) ["revenue"]
      (create_embedding_index (fun _ => ([] : List ℚ)) ["revenue"]) "revenue" 1 =
      Except.ok ["revenue"] from rfl]
  dsimp only
  rw [lex_candidates_revenue]
  rfl

/-- Claim C7 (amended): when the external scorer fails on a fused
candidate, `retrieve` aborts the query by propagating the failure as an
error outcome; it does not fall back to the raw fusion order and exposes
no "unscored" status. -/
theorem c7_scorer_failure_amended (embed : String → List ℚ) (ln : ℚ → ℚ)
    (cross : String → String → Except PipeError ℚ) (chunks : List String)
    (eidx : EmbIndex) (bm25 : BM25Index) (q : String) (k : ℕ)
    (fc : List String) (c : String) (rest : List String) (e : PipeError)
    (hdom : is_in_domain q = true)
    (hdense : dense_candidates embed chunks eidx q k = Except.ok fc)
    (hfuse : fuse fc (lex_candidates ln chunks bm25 q k) = c :: rest)
    (hc : cross q c = Except.error e) :
    retrieve embed ln cross chunks eidx bm25 q k = Except.error e := by
  simp only [retrieve, hdom, if_true]
  rw [hdense]
  dsimp only
  rw [hfuse]
  rw [if_neg (List.cons_ne_nil c rest)]
  rw [rerank, predictAll_error_head cross q c rest e hc]

/-- Claim C7 witness: concrete instantiation of the amended claim with a
scorer failing with a different error value. -/
theorem c7_scorer_failure_amended_witness :
    retrieve (fun _ => ([] : List ℚ)) (fun _ => (1 : ℚ))
      (fun _ _ => Except.error PipeError.dimensionMismatch)
      ["revenue"] (create_embedding_index (fun _ => ([] : List ℚ)) ["revenue"])
      (create_bm25_index ["revenue"]) "revenue" 1 =
    Except.error PipeError.dimensionMismatch := by
  refine c7_scorer_failure_amended _ _ _ _ _ _ "revenue" 1 ["revenue"] "revenue" []
    PipeError.dimensionMismatch (by decide) rfl ?_ rfl
  rw [lex_candidates_revenue]
  rfl

/-- Claim C8 counterexample: two identical chunks give two equal BM25
scores (whatever the logarithm evaluates to); `np.argsort(scores)[::-1]`
then lists the tied ids in descending order, not in the ascending order
the claim states. -/
theorem c8_tie_order_counterexample :
    bm25_top_indices
        (bm25_get_scores (fun _ => (1 : ℚ)) (create_bm25_index ["a", "a"]) ["a"]) 2 ≠
      spec_top_k
        (bm25_get_scores (fun _ => (1 : ℚ)) (create_bm25_index ["a", "a"]) ["a"]) 2 := by
  have h1 : create_bm25_index ["a", "a"] = ⟨[["a"], ["a"]]⟩ := by decide
  have h3 : bm25_score (fun _ => (1 : ℚ)) [["a"], ["a"]] ["a"] ["a"] = 1 := by
    simp [bm25_score, bm25_idf, termFreq]
    norm_num
  have hsc : bm25_get_scores (fun _ => (1 : ℚ)) (create_bm25_index ["a", "a"]) ["a"] =
      [1, 1] := by
    rw [h1]
    simp [bm25_get_scores, h3]
  rw [hsc]
  decide

/-- Claim C8 (amended): for every score array and every `k`, the
selection `np.argsort(scores)[::-1][:k]` returns the `k` ids of highest
score in descending score order with ties broken by *descending* chunk
id (under stable argsort semantics), i.e. it equals the `take k` of the
full `argDesc` sort; and the selection is sorted for `argDesc`. -/
theorem c8_top_k_amended (scores : List ℚ) (k : ℕ) :
    bm25_top_indices scores k = desc_top_k scores k ∧
    List.Sorted (argDesc scores) (bm25_top_indices scores k) := by
  constructor
  · rw [bm25_top_indices, desc_top_k, reverse_argsort]
  · rw [bm25_top_indices]
    have hs : List.Sorted (argDesc scores) ((argsort scores).reverse) := by
      rw [List.Sorted, List.pairwise_reverse]
      exact List.sorted_insertionSort (argAsc scores) (List.range scores.length)
    exact List.Pairwise.sublist (List.take_sublist k _) hs

/-- Claim C9: searching a built embedding index with a query vector
whose length differs from the index's fixed dimension always fails with
`DimensionMismatch`; no truncation, padding or result. -/
theorem c9_dimension_mismatch (embed : String → List ℚ) (chunks : List String)
    (qv : List ℚ) (k : ℕ)
    (h : qv.length ≠ (create_embedding_index embed chunks).dim) :
    (create_embedding_index embed chunks).search qv k =
      Except.error PipeError.dimensionMismatch := by
  rw [EmbIndex.search, if_neg h]

/-- Claim C9 witness: a 2-dimensional index queried with a 1-dimensional
vector. -/
theorem c9_dimension_mismatch_witness :
    (create_embedding_index (fun _ => ([0, 0] : List ℚ)) ["a"]).search [0] 5 =
      Except.error PipeError.dimensionMismatch :=
  c9_dimension_mismatch (fun _ => [0, 0]) ["a"] [0] 5 (by decide)

/-- Claim C10: for `overlap < chunk_size`, the `chunk_text` loop
terminates (the result is independent of any surplus fuel, because the
index advances by at least one word per iteration) and every word of the
input text occurs in at least one returned chunk. -/
theorem c10_chunk_text_total_coverage (text : String) (chunk_size overlap : ℕ)
    (h : overlap < chunk_size) :
    (∀ extra : ℕ,
      chunkLoop (pySplit text) chunk_size overlap ((pySplit text).length + extra) 0 =
        chunk_text text chunk_size overlap) ∧
    ∀ w ∈ pySplit text, ∃ c ∈ chunk_text text chunk_size overlap,
      ∃ ws, c = " ".intercalate ws ∧ w ∈ ws := by
  constructor
  · intro extra
    simp only [chunk_text]
    exact chunkLoop_fuel_irrel _ _ _ h _ _ 0 (by omega) (by omega)
  · intro w hw
    rcases List.mem_iff_getElem.mp hw with ⟨j, hj, hje⟩
    simp only [chunk_text]
    obtain ⟨c, hc, ws, hcw, hmem⟩ :=
      chunkLoop_covers (pySplit text) _ _ h ((pySplit text).length) 0 j hj
        (Nat.zero_le _) (by omega)
    refine ⟨c, hc, ws, hcw, ?_⟩
    rw [List.getD_eq_getElem _ _ hj, hje] at hmem
    exact hmem

/-- Claim C10 witness: with chunk size 2 and overlap 1, the middle word
of a three-word text is covered. -/
theorem c10_chunk_text_total_coverage_witness :
    ∃ c ∈ chunk_text "a b c" 2 1, ∃ ws, c = " ".intercalate ws ∧ "b" ∈ ws :=
  (c10_chunk_text_total_coverage "a b c" 2 1 (by decide)).2 "b" (by decide)
